import Mathlib

/-!
Shallow embedding of the `NFTMarketplace` Solidity contract
(`contracts/NFTMarketplace.sol` of the aora repository): listings,
fixed-price sales, English auctions, fee and royalty splitting and
pending-withdrawal accounting, modelled as a state machine.

Modelling conventions:
* Accounts and token (currency) identities are `Nat`; `0` plays the role
  of the zero address (`address(0)`).
* `uint256` quantities are `Nat`.  Solidity 0.8 checked arithmetic reverts
  on underflow; the one subtraction that can underflow in the settlement
  code (`totalPrice - marketplaceFeeAmount - royaltyAmount`) is modelled
  by explicit guards returning `Err.arithmeticUnderflow`.  Checked
  addition/multiplication overflow at `2^256` is not reachable at any
  input the theorems below touch and is not modelled (Nat is unbounded).
* A reverting call is an `Except.error`: no partial state survives,
  matching the EVM's transaction atomicity.
* External value movements (native transfers, ERC-20 calls) are recorded
  in an ordered log of `Xfer` actions; in the contract these transfers
  either succeed or revert the whole call, so the success path carries
  the exact list of transfers the call performs.
* Inherited OpenZeppelin behaviour that the contract relies on but whose
  source is not part of the repository (Ownable's owner check, Pausable's
  flag, ERC-721 ownership storage, ERC-2981 royalty bookkeeping) is
  modelled from the spec's description of those collaborators.
-/

namespace NFTMarketplace

/-- Account / contract addresses, with `0` as the zero address. -/
abbrev Address := Nat

/-- Pointwise update of a map backed by a function. -/
def upd {α : Type} (f : Nat → α) (k : Nat) (v : α) : Nat → α :=
  fun i => if i = k then v else f i

@[simp] theorem upd_same {α : Type} (f : Nat → α) (k : Nat) (v : α) :
    upd f k v k = v := by simp [upd]

@[simp] theorem upd_other {α : Type} (f : Nat → α) (k : Nat) (v : α)
    (i : Nat) (h : i ≠ k) : upd f k v i = f i := by simp [upd, h]

/-- Fixed-price listing record (struct `Listing`). -/
structure Listing where
  tokenId : Nat
  seller : Address
  price : Nat
  paymentToken : Address
  active : Bool
  createdAt : Nat
deriving DecidableEq, Repr

/-- The all-zero `Listing`, the value a deleted mapping slot reads back. -/
def Listing.deleted : Listing := ⟨0, 0, 0, 0, false, 0⟩

/-- English-auction record (struct `Auction`). -/
structure Auction where
  tokenId : Nat
  seller : Address
  startingPrice : Nat
  currentBid : Nat
  currentBidder : Address
  paymentToken : Address
  endTime : Nat
  active : Bool
  createdAt : Nat
deriving DecidableEq, Repr

/-- The all-zero `Auction`, the value a deleted mapping slot reads back. -/
def Auction.deleted : Auction := ⟨0, 0, 0, 0, 0, 0, 0, false, 0⟩

/-- Revert reasons of the contract, one constructor per distinct revert. -/
inductive Err where
  /-- `"Not token owner"` (modifier `onlyTokenOwner`). -/
  | notTokenOwner
  /-- OpenZeppelin `ownerOf` revert on a token nobody owns. -/
  | nonexistentToken
  /-- `"NFT not approved for marketplace"` (modifier `onlyApprovedNFT`). -/
  | nftNotApproved
  /-- OpenZeppelin `whenNotPaused` revert (`EnforcedPause`). -/
  | enforcedPause
  /-- OpenZeppelin `whenPaused` revert (`ExpectedPause`), from `_unpause`. -/
  | expectedPause
  /-- OpenZeppelin `onlyOwner` revert (`OwnableUnauthorizedAccount`). -/
  | notContractOwner
  /-- `"Price must be greater than 0"`. -/
  | invalidPrice
  /-- `"Starting price must be greater than 0"`. -/
  | invalidStartingPrice
  /-- `"Invalid duration"`. -/
  | invalidDuration
  /-- `"Invalid payment token"`. -/
  | invalidPaymentToken
  /-- `"Already listed"`. -/
  | alreadyListed
  /-- `"Token in auction"`. -/
  | tokenInAuction
  /-- `"Token is listed"`. -/
  | tokenIsListed
  /-- `"Auction already exists"`. -/
  | auctionExists
  /-- `"Not listed for sale"`. -/
  | notListedForSale
  /-- `"Not listed"` (from `cancelListing`). -/
  | notListed
  /-- `"Cannot buy your own NFT"`. -/
  | selfPurchase
  /-- `"Cannot bid on your own auction"`. -/
  | selfBid
  /-- `"Insufficient ETH"`. -/
  | insufficientETH
  /-- `"ETH not accepted for ERC20 payment"`. -/
  | ethNotAcceptedPayment
  /-- `"ETH not accepted for ERC20 auction"`. -/
  | ethNotAcceptedAuction
  /-- `"ERC20 auctions not implemented in this version"`. -/
  | erc20AuctionsNotImplemented
  /-- `"Auction not active"`. -/
  | auctionNotActive
  /-- `"Auction ended"`. -/
  | auctionEnded
  /-- `"Auction not ended"`. -/
  | auctionNotEnded
  /-- `"Bid below starting price"`. -/
  | bidBelowStartingPrice
  /-- `"Bid too low"`. -/
  | bidTooLow
  /-- `"No funds to withdraw"`. -/
  | noFundsToWithdraw
  /-- `"Fee too high"`. -/
  | feeTooHigh
  /-- `"Token does not exist"` (from `approveNFT`). -/
  | tokenDoesNotExist
  /-- OpenZeppelin `_safeMint` revert on minting to the zero address. -/
  | invalidReceiver
  /-- OpenZeppelin `_safeMint` revert on minting an existing token id. -/
  | tokenAlreadyMinted
  /-- OpenZeppelin `_setTokenRoyalty` revert on a fraction above 10000. -/
  | invalidRoyalty
  /-- OpenZeppelin `_transfer` revert when `from` is not the owner. -/
  | incorrectOwner
  /-- Solidity 0.8 checked-arithmetic underflow panic (0x11). -/
  | arithmeticUnderflow
deriving DecidableEq, Repr

/-- One external value movement performed by a call. -/
inductive Xfer where
  /-- `payable(to).transfer(amount)` — native currency out. -/
  | eth (dst : Address) (amount : Nat)
  /-- `token.transferFrom(from, address(this), amount)` — ERC-20 pulled in. -/
  | erc20Pull (token src : Address) (amount : Nat)
  /-- `token.transfer(to, amount)` — ERC-20 paid out. -/
  | erc20 (token dst : Address) (amount : Nat)
deriving DecidableEq, Repr

/-- The currency a transfer moves: `0` for native, the token address else. -/
def Xfer.currency : Xfer → Address
  | .eth _ _ => 0
  | .erc20Pull tk _ _ => tk
  | .erc20 tk _ _ => tk

/-- The contract's storage, plus the inherited OpenZeppelin storage it
reads (owner, pause flag, ERC-721 owners, ERC-2981 royalty table). -/
structure MarketState where
  /-- `Ownable` administrator (deployer). Modelled from the spec: the
  single privileged account controlling fees, approvals and pause state. -/
  owner : Address
  /-- `Pausable` circuit-breaker flag. Modelled from the spec. -/
  paused : Bool
  /-- `_tokenIdCounter`. -/
  tokenIdCounter : Nat
  /-- `marketplaceFee`, in basis points; deployed value 250. -/
  marketplaceFee : Nat
  /-- `usdtToken`, the one accepted ERC-20 payment token. -/
  usdtToken : Address
  /-- ERC-721 ownership map; `0` means the token does not exist.
  Modelled from the spec: the ownership registry `ownerOf`. -/
  owners : Nat → Address
  /-- `listings` mapping. -/
  listings : Nat → Listing
  /-- `auctions` mapping. -/
  auctions : Nat → Auction
  /-- `pendingWithdrawals` mapping. -/
  pendingWithdrawals : Address → Nat
  /-- `approvedNFTs` mapping. -/
  approvedNFTs : Nat → Bool
  /-- ERC-2981 per-token royalty receiver. Modelled from the spec:
  the external royalty lookup's stored recipient. -/
  royaltyReceiver : Nat → Address
  /-- ERC-2981 per-token royalty fraction out of 10000. Modelled from the
  spec: the external royalty lookup's stored rate. -/
  royaltyFraction : Nat → Nat

/-- Constructor state: fee 250 bps, nothing minted, listed or pending. -/
def initState (deployer usdtTok : Address) : MarketState :=
  { owner := deployer
    paused := false
    tokenIdCounter := 0
    marketplaceFee := 250
    usdtToken := usdtTok
    owners := fun _ => 0
    listings := fun _ => Listing.deleted
    auctions := fun _ => Auction.deleted
    pendingWithdrawals := fun _ => 0
    approvedNFTs := fun _ => false
    royaltyReceiver := fun _ => 0
    royaltyFraction := fun _ => 0 }

/-- Result of a state-changing call: revert reason, or new state plus the
ordered list of external transfers the call performed. -/
abbrev CallResult := Except Err (MarketState × List Xfer)

/-- Whether a call succeeded. -/
def isOk {α : Type} : Except Err α → Bool
  | .ok _ => true
  | .error _ => false

@[simp] theorem isOk_ok {α : Type} (a : α) : isOk (Except.ok (ε := Err) a) = true := rfl

@[simp] theorem isOk_error {α : Type} (e : Err) :
    isOk (Except.error (α := α) e) = false := rfl

/-- The state of a successful call, or a fallback on revert. -/
def okState (r : CallResult) (d : MarketState) : MarketState :=
  match r with
  | .ok (s, _) => s
  | .error _ => d

/-- The transfer log of a successful call, `[]` on revert. -/
def okLog (r : CallResult) : List Xfer :=
  match r with
  | .ok (_, l) => l
  | .error _ => []

/-- Modelled from the spec: the external royalty lookup
`royaltyInfo(itemId, salePrice) -> (recipient, amount)` (ERC-2981 with
denominator 10000); an unset token has recipient `0` and amount `0`. -/
def royaltyInfo (s : MarketState) (tokenId salePrice : Nat) : Address × Nat :=
  if s.royaltyReceiver tokenId = 0 then (0, 0)
  else (s.royaltyReceiver tokenId, salePrice * s.royaltyFraction tokenId / 10000)

/-- The settlement arithmetic shared verbatim by `buyNFT` and
`endAuction`: `marketplaceFeeAmount = totalPrice * marketplaceFee / 10000`,
`(royaltyRecipient, royaltyAmount) = royaltyInfo(tokenId, totalPrice)`,
`sellerAmount = totalPrice - marketplaceFeeAmount - royaltyAmount` with
Solidity 0.8 checked subtraction (left to right). -/
def feeSplit (s : MarketState) (tokenId totalPrice : Nat) :
    Except Err (Nat × Address × Nat × Nat) :=
  let fee := totalPrice * s.marketplaceFee / 10000
  let rr := (royaltyInfo s tokenId totalPrice).1
  let ra := (royaltyInfo s tokenId totalPrice).2
  if totalPrice < fee then .error .arithmeticUnderflow
  else if totalPrice - fee < ra then .error .arithmeticUnderflow
  else .ok (fee, rr, ra, totalPrice - fee - ra)

/-- `mintNFT(to, tokenURI, royaltyRecipient, royaltyFeeNumerator)`: mints
the next token id to `to` and, when a nonzero recipient and fraction are
given, records the token's royalty (ERC-2981 caps the fraction at 10000).
The string `tokenURI` is metadata no claim touches and is elided. -/
def mintNFT (s : MarketState) (mintTo royaltyRecipient : Address)
    (royaltyFeeNumerator : Nat) : CallResult :=
  let tokenId := s.tokenIdCounter
  if mintTo = 0 then .error .invalidReceiver
  else if s.owners tokenId ≠ 0 then .error .tokenAlreadyMinted
  else if royaltyRecipient ≠ 0 ∧ royaltyFeeNumerator > 0 then
    if royaltyFeeNumerator > 10000 then .error .invalidRoyalty
    else .ok ({ s with tokenIdCounter := tokenId + 1
                       owners := upd s.owners tokenId mintTo
                       royaltyReceiver := upd s.royaltyReceiver tokenId royaltyRecipient
                       royaltyFraction := upd s.royaltyFraction tokenId royaltyFeeNumerator }, [])
  else .ok ({ s with tokenIdCounter := tokenId + 1
                     owners := upd s.owners tokenId mintTo }, [])

/-- `approveNFT(tokenId, approved)` (onlyOwner): flips the admin
approval flag of an existing token. -/
def approveNFT (s : MarketState) (sender : Address) (tokenId : Nat)
    (approved : Bool) : CallResult :=
  if sender ≠ s.owner then .error .notContractOwner
  else if s.owners tokenId = 0 then .error .tokenDoesNotExist
  else .ok ({ s with approvedNFTs := upd s.approvedNFTs tokenId approved }, [])

/-- Loop body of `batchApproveNFTs`. -/
def batchApproveGo (s : MarketState) (approved : Bool) : List Nat → CallResult
  | [] => .ok (s, [])
  | tokenId :: rest =>
    if s.owners tokenId = 0 then .error .tokenDoesNotExist
    else batchApproveGo { s with approvedNFTs := upd s.approvedNFTs tokenId approved } approved rest

/-- `batchApproveNFTs(tokenIds, approved)` (onlyOwner). -/
def batchApproveNFTs (s : MarketState) (sender : Address) (tokenIds : List Nat)
    (approved : Bool) : CallResult :=
  if sender ≠ s.owner then .error .notContractOwner
  else batchApproveGo s approved tokenIds

/-- `listNFT(tokenId, price, paymentToken)`
(onlyTokenOwner, onlyApprovedNFT, whenNotPaused): records a fixed-price
listing; `now` is `block.timestamp`. -/
def listNFT (s : MarketState) (sender : Address) (tokenId price : Nat)
    (paymentToken : Address) (now : Nat) : CallResult :=
  if s.owners tokenId = 0 then .error .nonexistentToken
  else if s.owners tokenId ≠ sender then .error .notTokenOwner
  else if ¬ s.approvedNFTs tokenId then .error .nftNotApproved
  else if s.paused then .error .enforcedPause
  else if ¬ price > 0 then .error .invalidPrice
  else if ¬ (paymentToken = 0 ∨ paymentToken = s.usdtToken) then .error .invalidPaymentToken
  else if (s.listings tokenId).active then .error .alreadyListed
  else if (s.auctions tokenId).active then .error .tokenInAuction
  else .ok ({ s with listings := upd s.listings tokenId
                       ⟨tokenId, sender, price, paymentToken, true, now⟩ }, [])

/-- `buyNFT(tokenId)` (payable, nonReentrant, whenNotPaused): settles a
fixed-price sale — fee and royalty split, payment in the listing's
currency, NFT transfer, listing deletion.  `msgValue` is `msg.value`. -/
def buyNFT (s : MarketState) (sender : Address) (tokenId msgValue : Nat) : CallResult :=
  if s.paused then .error .enforcedPause
  else
    let listing := s.listings tokenId
    if ¬ listing.active then .error .notListedForSale
    else if listing.seller = sender then .error .selfPurchase
    else
      match feeSplit s tokenId listing.price with
      | .error e => .error e
      | .ok (fee, rr, ra, sellerAmount) =>
        if listing.paymentToken = 0 then
          if msgValue < listing.price then .error .insufficientETH
          else if s.owners tokenId ≠ listing.seller then .error .incorrectOwner
          else
            .ok ({ s with owners := upd s.owners tokenId sender
                          listings := upd s.listings tokenId Listing.deleted },
                 (if ra > 0 ∧ rr ≠ 0 then [Xfer.eth rr ra] else [])
                   ++ [Xfer.eth listing.seller sellerAmount, Xfer.eth s.owner fee]
                   ++ (if msgValue > listing.price
                       then [Xfer.eth sender (msgValue - listing.price)] else []))
        else
          if msgValue ≠ 0 then .error .ethNotAcceptedPayment
          else if s.owners tokenId ≠ listing.seller then .error .incorrectOwner
          else
            .ok ({ s with owners := upd s.owners tokenId sender
                          listings := upd s.listings tokenId Listing.deleted },
                 Xfer.erc20Pull listing.paymentToken sender listing.price
                   :: (if ra > 0 ∧ rr ≠ 0 then [Xfer.erc20 listing.paymentToken rr ra] else [])
                   ++ [Xfer.erc20 listing.paymentToken listing.seller sellerAmount,
                       Xfer.erc20 listing.paymentToken s.owner fee])

/-- `cancelListing(tokenId)` (onlyTokenOwner): deletes an active listing;
no funds move. -/
def cancelListing (s : MarketState) (sender : Address) (tokenId : Nat) : CallResult :=
  if s.owners tokenId = 0 then .error .nonexistentToken
  else if s.owners tokenId ≠ sender then .error .notTokenOwner
  else if ¬ (s.listings tokenId).active then .error .notListed
  else .ok ({ s with listings := upd s.listings tokenId Listing.deleted }, [])

/-- `createAuction(tokenId, startingPrice, duration, paymentToken)`
(onlyTokenOwner, onlyApprovedNFT, whenNotPaused): records an auction
ending at `now + duration`; duration bounded to [1 hour, 7 days]. -/
def createAuction (s : MarketState) (sender : Address)
    (tokenId startingPrice duration : Nat) (paymentToken : Address)
    (now : Nat) : CallResult :=
  if s.owners tokenId = 0 then .error .nonexistentToken
  else if s.owners tokenId ≠ sender then .error .notTokenOwner
  else if ¬ s.approvedNFTs tokenId then .error .nftNotApproved
  else if s.paused then .error .enforcedPause
  else if ¬ startingPrice > 0 then .error .invalidStartingPrice
  else if ¬ (3600 ≤ duration ∧ duration ≤ 604800) then .error .invalidDuration
  else if ¬ (paymentToken = 0 ∨ paymentToken = s.usdtToken) then .error .invalidPaymentToken
  else if (s.listings tokenId).active then .error .tokenIsListed
  else if (s.auctions tokenId).active then .error .auctionExists
  else .ok ({ s with auctions := upd s.auctions tokenId
                       ⟨tokenId, sender, startingPrice, 0, 0, paymentToken,
                        now + duration, true, now⟩ }, [])

/-- `placeBid(tokenId)` (payable, nonReentrant, whenNotPaused): accepts a
native-currency bid `msgValue` when it reaches the starting price and
strictly beats the current bid, crediting the displaced bidder's pending
withdrawals; ERC-20-denominated auctions always revert. -/
def placeBid (s : MarketState) (sender : Address) (tokenId msgValue now : Nat) : CallResult :=
  if s.paused then .error .enforcedPause
  else
    let auction := s.auctions tokenId
    if ¬ auction.active then .error .auctionNotActive
    else if ¬ now < auction.endTime then .error .auctionEnded
    else if sender = auction.seller then .error .selfBid
    else if auction.paymentToken = 0 then
      if msgValue < auction.startingPrice then .error .bidBelowStartingPrice
      else if ¬ msgValue > auction.currentBid then .error .bidTooLow
      else
        let credited := s.pendingWithdrawals auction.currentBidder + auction.currentBid
        let s₁ :=
          if auction.currentBidder ≠ 0 then
            { s with pendingWithdrawals := upd s.pendingWithdrawals auction.currentBidder credited }
          else s
        .ok ({ s₁ with auctions := upd s₁.auctions tokenId
                         { auction with currentBid := msgValue, currentBidder := sender } }, [])
    else
      if msgValue ≠ 0 then .error .ethNotAcceptedAuction
      else .error .erc20AuctionsNotImplemented

/-- `endAuction(tokenId)` (nonReentrant, no pause gate): after `endTime`,
settles the auction — fee and royalty split of the winning bid, native
payouts and NFT transfer when a bidder exists — and deletes the record. -/
def endAuction (s : MarketState) (tokenId now : Nat) : CallResult :=
  let auction := s.auctions tokenId
  if ¬ auction.active then .error .auctionNotActive
  else if now < auction.endTime then .error .auctionNotEnded
  else if auction.currentBidder ≠ 0 then
    match feeSplit s tokenId auction.currentBid with
    | .error e => .error e
    | .ok (fee, rr, ra, sellerAmount) =>
      if s.owners tokenId ≠ auction.seller then .error .incorrectOwner
      else
        .ok ({ s with owners := upd s.owners tokenId auction.currentBidder
                      auctions := upd s.auctions tokenId Auction.deleted },
             (if ra > 0 ∧ rr ≠ 0 then [Xfer.eth rr ra] else [])
               ++ [Xfer.eth auction.seller sellerAmount, Xfer.eth s.owner fee])
  else .ok ({ s with auctions := upd s.auctions tokenId Auction.deleted }, [])

/-- Primitive steps of `withdraw`, in the order the body performs them. -/
inductive WAct where
  /-- `pendingWithdrawals[a] = v`. -/
  | setPending (a : Address) (v : Nat)
  /-- `payable(dst).transfer(v)` — the external payout. -/
  | ethOut (dst : Address) (v : Nat)
deriving DecidableEq, Repr

/-- Effect of one `withdraw` step on storage (the external payout touches
no storage). -/
def applyWAct (s : MarketState) : WAct → MarketState
  | .setPending a v => { s with pendingWithdrawals := upd s.pendingWithdrawals a v }
  | .ethOut _ _ => s

/-- `withdraw()` (nonReentrant) as its ordered step trace: revert when the
caller's pending balance is zero, otherwise zero the balance and only
then transfer it out. -/
def withdrawTrace (s : MarketState) (sender : Address) : Except Err (List WAct) :=
  let amount := s.pendingWithdrawals sender
  if amount = 0 then .error .noFundsToWithdraw
  else .ok [WAct.setPending sender 0, WAct.ethOut sender amount]

/-- External transfer a `withdraw` step performs, if any. -/
def WAct.toXfer : WAct → Option Xfer
  | .setPending _ _ => none
  | .ethOut dst v => some (Xfer.eth dst v)

/-- `withdraw()` as a state transformer: the result of running the step
trace in order. -/
def withdraw (s : MarketState) (sender : Address) : CallResult :=
  (withdrawTrace s sender).map
    (fun tr => (tr.foldl applyWAct s, tr.filterMap WAct.toXfer))

/-- `setMarketplaceFee(_fee)` (onlyOwner), capped at `MAX_MARKETPLACE_FEE
= 1000` basis points. -/
def setMarketplaceFee (s : MarketState) (sender : Address) (fee : Nat) : CallResult :=
  if sender ≠ s.owner then .error .notContractOwner
  else if fee > 1000 then .error .feeTooHigh
  else .ok ({ s with marketplaceFee := fee }, [])

/-- `setUSDTToken(_usdtToken)` (onlyOwner). -/
def setUSDTToken (s : MarketState) (sender newToken : Address) : CallResult :=
  if sender ≠ s.owner then .error .notContractOwner
  else .ok ({ s with usdtToken := newToken }, [])

/-- `pause()` (onlyOwner); `_pause` reverts when already paused. -/
def pause (s : MarketState) (sender : Address) : CallResult :=
  if sender ≠ s.owner then .error .notContractOwner
  else if s.paused then .error .enforcedPause
  else .ok ({ s with paused := true }, [])

/-- `unpause()` (onlyOwner); `_unpause` reverts when not paused. -/
def unpause (s : MarketState) (sender : Address) : CallResult :=
  if sender ≠ s.owner then .error .notContractOwner
  else if ¬ s.paused then .error .expectedPause
  else .ok ({ s with paused := false }, [])

/-- One external call to the contract, with its arguments.  View
functions and the two emergency sweeps are omitted: they read or move
contract-held funds only and touch none of the storage modelled here. -/
inductive Op where
  | mint (mintTo royaltyRecipient : Address) (royaltyFeeNumerator : Nat)
  | approve (tokenId : Nat) (approved : Bool)
  | batchApprove (tokenIds : List Nat) (approved : Bool)
  | listOp (tokenId price : Nat) (paymentToken : Address) (now : Nat)
  | buyOp (tokenId msgValue : Nat)
  | cancelOp (tokenId : Nat)
  | createOp (tokenId startingPrice duration : Nat) (paymentToken : Address) (now : Nat)
  | bidOp (tokenId msgValue now : Nat)
  | endOp (tokenId now : Nat)
  | withdrawOp
  | setFeeOp (fee : Nat)
  | setTokenOp (newToken : Address)
  | pauseOp
  | unpauseOp

/-- Dispatch an external call by `sender`. -/
def runOp (s : MarketState) (sender : Address) : Op → CallResult
  | .mint mintTo rr rnum => mintNFT s mintTo rr rnum
  | .approve tokenId b => approveNFT s sender tokenId b
  | .batchApprove ids b => batchApproveNFTs s sender ids b
  | .listOp tokenId price pt now => listNFT s sender tokenId price pt now
  | .buyOp tokenId msgValue => buyNFT s sender tokenId msgValue
  | .cancelOp tokenId => cancelListing s sender tokenId
  | .createOp tokenId sp d pt now => createAuction s sender tokenId sp d pt now
  | .bidOp tokenId msgValue now => placeBid s sender tokenId msgValue now
  | .endOp tokenId now => endAuction s tokenId now
  | .withdrawOp => withdraw s sender
  | .setFeeOp fee => setMarketplaceFee s sender fee
  | .setTokenOp tok => setUSDTToken s sender tok
  | .pauseOp => pause s sender
  | .unpauseOp => unpause s sender

/-- The states the deployed contract can reach: the constructor state,
closed under successful external calls.  `sender ≠ 0` reflects the EVM
guarantee that `msg.sender` is never the zero address. -/
inductive Reachable : MarketState → Prop where
  | init (deployer usdtTok : Address) (hd : deployer ≠ 0) :
      Reachable (initState deployer usdtTok)
  | step (s : MarketState) (sender : Address) (op : Op) (s' : MarketState)
      (l : List Xfer) (hr : Reachable s) (hs : sender ≠ 0)
      (hok : runOp s sender op = .ok (s', l)) : Reachable s'

/-- The structural invariant the operations maintain: per token, a
listing and an auction are never both active, and an active record's
seller is the token's current (nonzero) owner. -/
def Inv (s : MarketState) : Prop :=
  ∀ t, (¬ ((s.listings t).active = true ∧ (s.auctions t).active = true))
    ∧ ((s.listings t).active = true →
         (s.listings t).seller = s.owners t ∧ (s.listings t).seller ≠ 0)
    ∧ ((s.auctions t).active = true →
         (s.auctions t).seller = s.owners t ∧ (s.auctions t).seller ≠ 0)

theorem inv_init (deployer usdtTok : Address) : Inv (initState deployer usdtTok) := by
  intro t
  simp [initState, Listing.deleted, Auction.deleted]

/-! Elimination lemmas: what a successful call implies about its
preconditions, its result state and its transfer log. -/

theorem setMarketplaceFee_ok {s : MarketState} {sender : Address} {fee : Nat}
    {s' : MarketState} {l : List Xfer}
    (h : setMarketplaceFee s sender fee = .ok (s', l)) :
    sender = s.owner ∧ fee ≤ 1000 ∧ s' = { s with marketplaceFee := fee } ∧ l = [] := by
  unfold setMarketplaceFee at h
  split_ifs at h with h1 h2
  simp only [Except.ok.injEq, Prod.mk.injEq] at h
  exact ⟨not_not.mp h1, by omega, h.1.symm, h.2.symm⟩

theorem setUSDTToken_ok {s : MarketState} {sender newToken : Address}
    {s' : MarketState} {l : List Xfer}
    (h : setUSDTToken s sender newToken = .ok (s', l)) :
    sender = s.owner ∧ s' = { s with usdtToken := newToken } ∧ l = [] := by
  unfold setUSDTToken at h
  split_ifs at h with h1
  simp only [Except.ok.injEq, Prod.mk.injEq] at h
  exact ⟨not_not.mp h1, h.1.symm, h.2.symm⟩

theorem pause_ok {s : MarketState} {sender : Address}
    {s' : MarketState} {l : List Xfer}
    (h : pause s sender = .ok (s', l)) :
    sender = s.owner ∧ s.paused = false ∧ s' = { s with paused := true } ∧ l = [] := by
  unfold pause at h
  split_ifs at h with h1 h2
  simp only [Except.ok.injEq, Prod.mk.injEq] at h
  exact ⟨not_not.mp h1, by simpa using h2, h.1.symm, h.2.symm⟩

theorem unpause_ok {s : MarketState} {sender : Address}
    {s' : MarketState} {l : List Xfer}
    (h : unpause s sender = .ok (s', l)) :
    sender = s.owner ∧ s.paused = true ∧ s' = { s with paused := false } ∧ l = [] := by
  unfold unpause at h
  split_ifs at h with h1 h2
  simp only [Except.ok.injEq, Prod.mk.injEq] at h
  exact ⟨not_not.mp h1, by simpa using h2, h.1.symm, h.2.symm⟩

theorem approveNFT_ok {s : MarketState} {sender : Address} {tokenId : Nat}
    {approved : Bool} {s' : MarketState} {l : List Xfer}
    (h : approveNFT s sender tokenId approved = .ok (s', l)) :
    sender = s.owner ∧ s.owners tokenId ≠ 0 ∧
    s' = { s with approvedNFTs := upd s.approvedNFTs tokenId approved } ∧ l = [] := by
  unfold approveNFT at h
  split_ifs at h with h1 h2
  simp only [Except.ok.injEq, Prod.mk.injEq] at h
  exact ⟨not_not.mp h1, h2, h.1.symm, h.2.symm⟩

theorem batchApproveGo_ok {approved : Bool} :
    ∀ (ids : List Nat) (s : MarketState) (s' : MarketState) (l : List Xfer),
      batchApproveGo s approved ids = .ok (s', l) →
      s'.listings = s.listings ∧ s'.auctions = s.auctions ∧ s'.owners = s.owners ∧
      s'.pendingWithdrawals = s.pendingWithdrawals ∧ l = []
  | [], s, s', l, h => by
      simp only [batchApproveGo, Except.ok.injEq, Prod.mk.injEq] at h
      simp [← h.1, h.2.symm]
  | tokenId :: rest, s, s', l, h => by
      unfold batchApproveGo at h
      split_ifs at h with h1
      have ih := batchApproveGo_ok rest _ s' l h
      simpa using ih

theorem batchApproveNFTs_ok {s : MarketState} {sender : Address}
    {tokenIds : List Nat} {approved : Bool} {s' : MarketState} {l : List Xfer}
    (h : batchApproveNFTs s sender tokenIds approved = .ok (s', l)) :
    s'.listings = s.listings ∧ s'.auctions = s.auctions ∧ s'.owners = s.owners ∧
    s'.pendingWithdrawals = s.pendingWithdrawals ∧ l = [] := by
  unfold batchApproveNFTs at h
  split_ifs at h with h1
  exact batchApproveGo_ok tokenIds s s' l h

theorem mintNFT_ok {s : MarketState} {mintTo royaltyRecipient : Address}
    {royaltyFeeNumerator : Nat} {s' : MarketState} {l : List Xfer}
    (h : mintNFT s mintTo royaltyRecipient royaltyFeeNumerator = .ok (s', l)) :
    mintTo ≠ 0 ∧ s.owners s.tokenIdCounter = 0 ∧
    s'.listings = s.listings ∧ s'.auctions = s.auctions ∧
    s'.pendingWithdrawals = s.pendingWithdrawals ∧
    s'.owners = upd s.owners s.tokenIdCounter mintTo ∧ l = [] := by
  simp only [mintNFT] at h
  split_ifs at h with h1 h2 h3 h4 <;>
    simp only [Except.ok.injEq, Prod.mk.injEq] at h <;>
    obtain ⟨hs, hl⟩ := h <;>
    subst hl <;>
    refine ⟨h1, not_not.mp h2, ?_, ?_, ?_, ?_, rfl⟩ <;> simp [← hs]

theorem withdraw_ok {s : MarketState} {sender : Address}
    {s' : MarketState} {l : List Xfer}
    (h : withdraw s sender = .ok (s', l)) :
    s.pendingWithdrawals sender ≠ 0 ∧
    s' = { s with pendingWithdrawals := upd s.pendingWithdrawals sender 0 } ∧
    l = [Xfer.eth sender (s.pendingWithdrawals sender)] := by
  simp only [withdraw, withdrawTrace] at h
  split_ifs at h with h1
  · exact Except.noConfusion h
  · simp only [Except.map, Except.ok.injEq, Prod.mk.injEq, List.foldl, applyWAct,
      List.filterMap, WAct.toXfer] at h
    exact ⟨h1, h.1.symm, h.2.symm⟩

theorem cancelListing_ok {s : MarketState} {sender : Address} {tokenId : Nat}
    {s' : MarketState} {l : List Xfer}
    (h : cancelListing s sender tokenId = .ok (s', l)) :
    s.owners tokenId ≠ 0 ∧ s.owners tokenId = sender ∧
    (s.listings tokenId).active = true ∧
    s'.listings = upd s.listings tokenId Listing.deleted ∧
    s'.auctions = s.auctions ∧ s'.owners = s.owners ∧
    s'.pendingWithdrawals = s.pendingWithdrawals ∧ s'.paused = s.paused ∧
    s'.owner = s.owner ∧ s'.marketplaceFee = s.marketplaceFee ∧
    s'.usdtToken = s.usdtToken ∧ l = [] := by
  unfold cancelListing at h
  split_ifs at h with h1 h2 h3
  simp only [Except.ok.injEq, Prod.mk.injEq] at h
  obtain ⟨hs, hl⟩ := h
  subst hl
  refine ⟨h1, not_not.mp h2, by simpa using h3, ?_, ?_, ?_, ?_, ?_, ?_, ?_, ?_, rfl⟩ <;>
    simp [← hs]

theorem listNFT_ok {s : MarketState} {sender : Address} {tokenId price : Nat}
    {paymentToken : Address} {now : Nat} {s' : MarketState} {l : List Xfer}
    (h : listNFT s sender tokenId price paymentToken now = .ok (s', l)) :
    s.owners tokenId ≠ 0 ∧ s.owners tokenId = sender ∧
    s.approvedNFTs tokenId = true ∧ s.paused = false ∧ 0 < price ∧
    (paymentToken = 0 ∨ paymentToken = s.usdtToken) ∧
    (s.listings tokenId).active = false ∧ (s.auctions tokenId).active = false ∧
    s'.listings = upd s.listings tokenId
      ⟨tokenId, sender, price, paymentToken, true, now⟩ ∧
    s'.auctions = s.auctions ∧ s'.owners = s.owners ∧
    s'.pendingWithdrawals = s.pendingWithdrawals ∧ s'.paused = s.paused ∧
    s'.owner = s.owner ∧ s'.marketplaceFee = s.marketplaceFee ∧
    s'.usdtToken = s.usdtToken ∧ l = [] := by
  unfold listNFT at h
  split_ifs at h with h1 h2 h3 h4 h5 h6 h7 h8
  simp only [Except.ok.injEq, Prod.mk.injEq] at h
  obtain ⟨hs, hl⟩ := h
  subst hl
  refine ⟨h1, not_not.mp h2, by simpa using h3, by simpa using h4, by omega,
         h6, by simpa using h7, by simpa using h8,
         ?_, ?_, ?_, ?_, ?_, ?_, ?_, ?_, rfl⟩ <;> simp [← hs]

theorem createAuction_ok {s : MarketState} {sender : Address}
    {tokenId startingPrice duration : Nat} {paymentToken : Address} {now : Nat}
    {s' : MarketState} {l : List Xfer}
    (h : createAuction s sender tokenId startingPrice duration paymentToken now
           = .ok (s', l)) :
    s.owners tokenId ≠ 0 ∧ s.owners tokenId = sender ∧
    s.approvedNFTs tokenId = true ∧ s.paused = false ∧ 0 < startingPrice ∧
    (3600 ≤ duration ∧ duration ≤ 604800) ∧
    (paymentToken = 0 ∨ paymentToken = s.usdtToken) ∧
    (s.listings tokenId).active = false ∧ (s.auctions tokenId).active = false ∧
    s'.auctions = upd s.auctions tokenId
      ⟨tokenId, sender, startingPrice, 0, 0, paymentToken,
       now + duration, true, now⟩ ∧
    s'.listings = s.listings ∧ s'.owners = s.owners ∧
    s'.pendingWithdrawals = s.pendingWithdrawals ∧ s'.paused = s.paused ∧
    s'.owner = s.owner ∧ s'.marketplaceFee = s.marketplaceFee ∧
    s'.usdtToken = s.usdtToken ∧ l = [] := by
  unfold createAuction at h
  split_ifs at h with h1 h2 h3 h4 h5 h6 h7 h8 h9
  simp only [Except.ok.injEq, Prod.mk.injEq] at h
  obtain ⟨hs, hl⟩ := h
  subst hl
  refine ⟨h1, not_not.mp h2, by simpa using h3, by simpa using h4, by omega,
         h6, h7, by simpa using h8, by simpa using h9,
         ?_, ?_, ?_, ?_, ?_, ?_, ?_, ?_, rfl⟩ <;> simp [← hs]

theorem placeBid_ok {s : MarketState} {sender : Address} {tokenId msgValue now : Nat}
    {s' : MarketState} {l : List Xfer}
    (h : placeBid s sender tokenId msgValue now = .ok (s', l)) :
    s.paused = false ∧ (s.auctions tokenId).active = true ∧
    now < (s.auctions tokenId).endTime ∧ sender ≠ (s.auctions tokenId).seller ∧
    (s.auctions tokenId).paymentToken = 0 ∧
    (s.auctions tokenId).startingPrice ≤ msgValue ∧
    (s.auctions tokenId).currentBid < msgValue ∧
    s'.auctions = upd s.auctions tokenId
      { s.auctions tokenId with currentBid := msgValue, currentBidder := sender } ∧
    s'.pendingWithdrawals =
      (if (s.auctions tokenId).currentBidder ≠ 0 then
        upd s.pendingWithdrawals (s.auctions tokenId).currentBidder
          (s.pendingWithdrawals (s.auctions tokenId).currentBidder
            + (s.auctions tokenId).currentBid)
      else s.pendingWithdrawals) ∧
    s'.listings = s.listings ∧ s'.owners = s.owners ∧ s'.paused = s.paused ∧
    s'.owner = s.owner ∧ s'.marketplaceFee = s.marketplaceFee ∧
    s'.usdtToken = s.usdtToken ∧ l = [] := by
  simp only [placeBid] at h
  split_ifs at h with h1 h2 h3 h4 h5 h6 h7 h8 h9 h10 <;>
    try exact Except.noConfusion h
  all_goals
    simp only [Except.ok.injEq, Prod.mk.injEq] at h
  all_goals
    obtain ⟨hs, hl⟩ := h
  all_goals
    subst hl
  · refine ⟨by simpa using h1, by simpa using h2, by omega, h4, h5, by omega, by omega,
      ?_, ?_, ?_, ?_, ?_, ?_, ?_, ?_, rfl⟩ <;> simp [← hs, h8]
  · refine ⟨by simpa using h1, by simpa using h2, by omega, h4, h5, by omega, by omega,
      ?_, ?_, ?_, ?_, ?_, ?_, ?_, ?_, rfl⟩ <;> simp [← hs, h8]

theorem buyNFT_ok {s : MarketState} {sender : Address} {tokenId msgValue : Nat}
    {s' : MarketState} {l : List Xfer}
    (h : buyNFT s sender tokenId msgValue = .ok (s', l)) :
    s.paused = false ∧ (s.listings tokenId).active = true ∧
    (s.listings tokenId).seller ≠ sender ∧
    s.owners tokenId = (s.listings tokenId).seller ∧
    s'.owners = upd s.owners tokenId sender ∧
    s'.listings = upd s.listings tokenId Listing.deleted ∧
    s'.auctions = s.auctions ∧ s'.pendingWithdrawals = s.pendingWithdrawals ∧
    s'.paused = s.paused ∧ s'.owner = s.owner ∧
    s'.marketplaceFee = s.marketplaceFee ∧ s'.usdtToken = s.usdtToken ∧
    ∃ fee rr ra sellerAmount,
      feeSplit s tokenId (s.listings tokenId).price = .ok (fee, rr, ra, sellerAmount) ∧
      (((s.listings tokenId).paymentToken = 0 ∧ (s.listings tokenId).price ≤ msgValue ∧
          Xfer.eth (s.listings tokenId).seller sellerAmount ∈ l ∧
          Xfer.eth s.owner fee ∈ l ∧ ∀ x ∈ l, x.currency = 0)
        ∨ ((s.listings tokenId).paymentToken ≠ 0 ∧ msgValue = 0 ∧
          Xfer.erc20 (s.listings tokenId).paymentToken (s.listings tokenId).seller sellerAmount ∈ l ∧
          Xfer.erc20 (s.listings tokenId).paymentToken s.owner fee ∈ l ∧
          ∀ x ∈ l, x.currency = (s.listings tokenId).paymentToken)) := by
  simp only [buyNFT] at h
  rcases hfs : feeSplit s tokenId (s.listings tokenId).price with e | ⟨fee, rr, ra, sellerAmount⟩ <;>
    rw [hfs] at h
  · split_ifs at h <;> exact Except.noConfusion h
  · split_ifs at h with h1 h2 h3 h4 h5 h6 h7 h8 h9 h10 <;>
      try exact Except.noConfusion h
    all_goals
      simp only [Except.ok.injEq, Prod.mk.injEq] at h
    all_goals
      obtain ⟨hs, hl⟩ := h
    all_goals
      subst hl
    all_goals
      refine ⟨by simp_all, by simp_all, by assumption, by simp_all,
        by simp [← hs], by simp [← hs], by simp [← hs], by simp [← hs],
        by simp [← hs], by simp [← hs], by simp [← hs], by simp [← hs],
        fee, rr, ra, sellerAmount, rfl, ?_⟩
    all_goals
      first
      | exact Or.inl ⟨by assumption, by omega, by simp, by simp,
          by by_cases hc : ra > 0 ∧ rr ≠ 0 <;> simp [hc, Xfer.currency]⟩
      | exact Or.inr ⟨by assumption, by simp_all, by simp, by simp,
          by by_cases hc : ra > 0 ∧ rr ≠ 0 <;> simp [hc, Xfer.currency]⟩

theorem endAuction_ok {s : MarketState} {tokenId now : Nat}
    {s' : MarketState} {l : List Xfer}
    (h : endAuction s tokenId now = .ok (s', l)) :
    (s.auctions tokenId).active = true ∧ (s.auctions tokenId).endTime ≤ now ∧
    s'.auctions = upd s.auctions tokenId Auction.deleted ∧
    s'.listings = s.listings ∧ s'.pendingWithdrawals = s.pendingWithdrawals ∧
    s'.paused = s.paused ∧ s'.owner = s.owner ∧
    s'.marketplaceFee = s.marketplaceFee ∧ s'.usdtToken = s.usdtToken ∧
    (((s.auctions tokenId).currentBidder = 0 ∧ s'.owners = s.owners ∧ l = [])
      ∨ ((s.auctions tokenId).currentBidder ≠ 0 ∧
         s.owners tokenId = (s.auctions tokenId).seller ∧
         s'.owners = upd s.owners tokenId (s.auctions tokenId).currentBidder ∧
         ∃ fee rr ra sellerAmount,
           feeSplit s tokenId (s.auctions tokenId).currentBid
             = .ok (fee, rr, ra, sellerAmount) ∧
           Xfer.eth (s.auctions tokenId).seller sellerAmount ∈ l ∧
           Xfer.eth s.owner fee ∈ l ∧ ∀ x ∈ l, x.currency = 0)) := by
  simp only [endAuction] at h
  rcases hfs : feeSplit s tokenId (s.auctions tokenId).currentBid with e | ⟨fee, rr, ra, sellerAmount⟩ <;>
    rw [hfs] at h
  · split_ifs at h with h1 h2 h3 <;>
      try exact Except.noConfusion h
    simp only [Except.ok.injEq, Prod.mk.injEq] at h
    obtain ⟨hs, hl⟩ := h
    subst hl
    refine ⟨by simpa using h1, by omega, ?_, ?_, ?_, ?_, ?_, ?_, ?_,
      Or.inl ⟨by simpa using h3, ?_, rfl⟩⟩ <;> simp [← hs]
  · split_ifs at h with h1 h2 h3 h4 h5 <;>
      try exact Except.noConfusion h
    all_goals
      simp only [Except.ok.injEq, Prod.mk.injEq] at h
    all_goals
      obtain ⟨hs, hl⟩ := h
    all_goals
      subst hl
    all_goals
      first
      | refine ⟨by simpa using h1, by omega, ?_, ?_, ?_, ?_, ?_, ?_, ?_,
          Or.inr ⟨by assumption, by simp_all, by simp [← hs],
            fee, rr, ra, sellerAmount, rfl, by simp, by simp,
            by by_cases hc : ra > 0 ∧ rr ≠ 0 <;> simp [hc, Xfer.currency]⟩⟩ <;> simp [← hs]
      | refine ⟨by simpa using h1, by omega, ?_, ?_, ?_, ?_, ?_, ?_, ?_,
          Or.inl ⟨by simp_all, ?_, rfl⟩⟩ <;> simp [← hs]

/-! Preservation of the structural invariant by every operation. -/

theorem inv_of_fields {s s' : MarketState} (hl : s'.listings = s.listings)
    (ha : s'.auctions = s.auctions) (ho : s'.owners = s.owners)
    (h : Inv s) : Inv s' := by
  intro t
  rw [hl, ha, ho]
  exact h t

theorem inv_mint {s s' : MarketState} {mintTo : Address}
    (hinv : Inv s) (h2 : s.owners s.tokenIdCounter = 0)
    (hl : s'.listings = s.listings) (ha : s'.auctions = s.auctions)
    (ho : s'.owners = upd s.owners s.tokenIdCounter mintTo) : Inv s' := by
  intro t
  obtain ⟨hex, hlst, hauc⟩ := hinv t
  rw [hl, ha, ho]
  refine ⟨hex, ?_, ?_⟩
  · intro hact
    obtain ⟨hsel, hnz⟩ := hlst hact
    rcases eq_or_ne t s.tokenIdCounter with ht | ht
    · subst ht
      rw [h2] at hsel
      exact absurd hsel hnz
    · rw [upd_other _ _ _ t ht]
      exact ⟨hsel, hnz⟩
  · intro hact
    obtain ⟨hsel, hnz⟩ := hauc hact
    rcases eq_or_ne t s.tokenIdCounter with ht | ht
    · subst ht
      rw [h2] at hsel
      exact absurd hsel hnz
    · rw [upd_other _ _ _ t ht]
      exact ⟨hsel, hnz⟩

theorem inv_step {s : MarketState} {sender : Address} {op : Op}
    {s' : MarketState} {l : List Xfer}
    (hinv : Inv s) (hs0 : sender ≠ 0)
    (h : runOp s sender op = .ok (s', l)) : Inv s' := by
  cases op with
  | mint mintTo rr rnum =>
      obtain ⟨-, h2, hl, ha, -, ho, -⟩ := mintNFT_ok h
      exact inv_mint hinv h2 hl ha ho
  | approve tokenId b =>
      obtain ⟨-, -, hs, -⟩ := approveNFT_ok h
      exact inv_of_fields (by rw [hs]) (by rw [hs]) (by rw [hs]) hinv
  | batchApprove ids b =>
      obtain ⟨hl, ha, ho, -, -⟩ := batchApproveNFTs_ok h
      exact inv_of_fields hl ha ho hinv
  | listOp tokenId price pt now =>
      obtain ⟨h1, h2, -, -, -, -, -, h8, hl, ha, ho, -⟩ := listNFT_ok h
      intro t
      obtain ⟨hex, hlst, hauc⟩ := hinv t
      rw [hl, ha, ho]
      rcases eq_or_ne t tokenId with ht | ht
      · subst ht
        simp only [upd_same]
        exact ⟨by simp [h8], fun _ => ⟨h2.symm, fun hz => h1 (h2.trans hz)⟩, hauc⟩
      · simp only [upd_other _ _ _ t ht]
        exact ⟨hex, hlst, hauc⟩
  | buyOp tokenId msgValue =>
      obtain ⟨-, h2, -, -, ho, hl, ha, -⟩ := buyNFT_ok h
      intro t
      obtain ⟨hex, hlst, hauc⟩ := hinv t
      rw [hl, ha, ho]
      rcases eq_or_ne t tokenId with ht | ht
      · subst ht
        have hna : (s.auctions t).active = false := by
          rcases Bool.eq_false_or_eq_true (s.auctions t).active with hb | hb
          · exact absurd ⟨h2, hb⟩ (hinv t).1
          · exact hb
        simp [Listing.deleted, hna]
      · simp only [upd_other _ _ _ t ht]
        exact ⟨hex, hlst, hauc⟩
  | cancelOp tokenId =>
      obtain ⟨-, -, -, hl, ha, ho, -⟩ := cancelListing_ok h
      intro t
      obtain ⟨hex, hlst, hauc⟩ := hinv t
      rw [hl, ha, ho]
      rcases eq_or_ne t tokenId with ht | ht
      · subst ht
        simp only [upd_same]
        exact ⟨by simp [Listing.deleted], by simp [Listing.deleted], hauc⟩
      · simp only [upd_other _ _ _ t ht]
        exact ⟨hex, hlst, hauc⟩
  | createOp tokenId sp d pt now =>
      obtain ⟨h1, h2, -, -, -, -, -, h8, -, ha, hl, ho, -⟩ := createAuction_ok h
      intro t
      obtain ⟨hex, hlst, hauc⟩ := hinv t
      rw [hl, ha, ho]
      rcases eq_or_ne t tokenId with ht | ht
      · subst ht
        simp only [upd_same]
        exact ⟨by simp [h8], hlst, fun _ => ⟨h2.symm, fun hz => h1 (h2.trans hz)⟩⟩
      · simp only [upd_other _ _ _ t ht]
        exact ⟨hex, hlst, hauc⟩
  | bidOp tokenId msgValue now =>
      obtain ⟨-, h2, -, -, -, -, -, ha, -, hl, ho, -⟩ := placeBid_ok h
      intro t
      obtain ⟨hex, hlst, hauc⟩ := hinv t
      rw [hl, ha, ho]
      rcases eq_or_ne t tokenId with ht | ht
      · subst ht
        have hnl : (s.listings t).active = false := by
          rcases Bool.eq_false_or_eq_true (s.listings t).active with hb | hb
          · exact absurd ⟨hb, h2⟩ (hinv t).1
          · exact hb
        refine ⟨by simp [hnl], by simp [hnl], ?_⟩
        simp only [upd_same]
        intro _
        exact hauc h2
      · simp only [upd_other _ _ _ t ht]
        exact ⟨hex, hlst, hauc⟩
  | endOp tokenId now =>
      obtain ⟨h1, -, ha, hl, -, -, -, -, -, hcase⟩ := endAuction_ok h
      have hnl : (s.listings tokenId).active = false := by
        rcases Bool.eq_false_or_eq_true (s.listings tokenId).active with hb | hb
        · exact absurd ⟨hb, h1⟩ (hinv tokenId).1
        · exact hb
      have howners : ∀ t, t ≠ tokenId → s'.owners t = s.owners t := by
        intro t ht
        rcases hcase with ⟨-, ho, -⟩ | ⟨-, -, ho, -⟩
        · rw [ho]
        · rw [ho]
          exact upd_other _ _ _ t ht
      intro t
      obtain ⟨hex, hlst, hauc⟩ := hinv t
      rw [hl, ha]
      rcases eq_or_ne t tokenId with ht | ht
      · subst ht
        simp [Auction.deleted, hnl]
      · simp only [upd_other _ _ _ t ht, howners t ht]
        exact ⟨hex, hlst, hauc⟩
  | withdrawOp =>
      obtain ⟨-, hs, -⟩ := withdraw_ok h
      exact inv_of_fields (by rw [hs]) (by rw [hs]) (by rw [hs]) hinv
  | setFeeOp fee =>
      obtain ⟨-, -, hs, -⟩ := setMarketplaceFee_ok h
      exact inv_of_fields (by rw [hs]) (by rw [hs]) (by rw [hs]) hinv
  | setTokenOp tok =>
      obtain ⟨-, hs, -⟩ := setUSDTToken_ok h
      exact inv_of_fields (by rw [hs]) (by rw [hs]) (by rw [hs]) hinv
  | pauseOp =>
      obtain ⟨-, -, hs, -⟩ := pause_ok h
      exact inv_of_fields (by rw [hs]) (by rw [hs]) (by rw [hs]) hinv
  | unpauseOp =>
      obtain ⟨-, -, hs, -⟩ := unpause_ok h
      exact inv_of_fields (by rw [hs]) (by rw [hs]) (by rw [hs]) hinv

/-- Every reachable state satisfies the structural invariant. -/
theorem inv_of_reachable {s : MarketState} (h : Reachable s) : Inv s := by
  induction h with
  | init deployer usdtTok hd => exact inv_init deployer usdtTok
  | step s sender op s' l hr hs hok ih => exact inv_step ih hs hok

theorem feeSplit_ok_elim {s : MarketState} {tokenId p fee : Nat} {rr : Address}
    {ra sa : Nat} (h : feeSplit s tokenId p = .ok (fee, rr, ra, sa)) :
    fee = p * s.marketplaceFee / 10000 ∧ rr = (royaltyInfo s tokenId p).1 ∧
    ra = (royaltyInfo s tokenId p).2 ∧ sa = p - fee - ra ∧ fee + ra ≤ p := by
  simp only [feeSplit] at h
  split_ifs at h with h1 h2
  simp only [Except.ok.injEq, Prod.mk.injEq] at h
  obtain ⟨hf, hr, hra, hsa⟩ := h
  exact ⟨hf.symm, hr.symm, hra.symm, by omega, by omega⟩

/-- C1: for every successful sale settlement — a fixed-price `buyNFT` or
an `endAuction` with a winner — at price `p`, the fee is
`p * marketplaceFee / 10000` (truncating division), the royalty pair
comes from the royalty lookup at `(tokenId, p)`, the seller amount is
`p - fee - royalty`, the three parts are non-negative (the checked
subtraction guarantees `fee + royalty ≤ p`) and they recompose to
exactly `p`; the seller's share is paid out in the transfer log. -/
theorem sale_settlement_exact (s : MarketState) (sender : Address)
    (tokenId msgValue now : Nat) (s' : MarketState) (l : List Xfer) :
    (buyNFT s sender tokenId msgValue = .ok (s', l) →
      (s.listings tokenId).price * s.marketplaceFee / 10000
          + (royaltyInfo s tokenId (s.listings tokenId).price).2
        ≤ (s.listings tokenId).price ∧
      ((s.listings tokenId).price
          - (s.listings tokenId).price * s.marketplaceFee / 10000
          - (royaltyInfo s tokenId (s.listings tokenId).price).2)
          + (s.listings tokenId).price * s.marketplaceFee / 10000
          + (royaltyInfo s tokenId (s.listings tokenId).price).2
        = (s.listings tokenId).price ∧
      feeSplit s tokenId (s.listings tokenId).price
        = .ok ((s.listings tokenId).price * s.marketplaceFee / 10000,
               (royaltyInfo s tokenId (s.listings tokenId).price).1,
               (royaltyInfo s tokenId (s.listings tokenId).price).2,
               (s.listings tokenId).price
                 - (s.listings tokenId).price * s.marketplaceFee / 10000
                 - (royaltyInfo s tokenId (s.listings tokenId).price).2) ∧
      (Xfer.eth (s.listings tokenId).seller
          ((s.listings tokenId).price
            - (s.listings tokenId).price * s.marketplaceFee / 10000
            - (royaltyInfo s tokenId (s.listings tokenId).price).2) ∈ l ∨
       Xfer.erc20 (s.listings tokenId).paymentToken (s.listings tokenId).seller
          ((s.listings tokenId).price
            - (s.listings tokenId).price * s.marketplaceFee / 10000
            - (royaltyInfo s tokenId (s.listings tokenId).price).2) ∈ l)) ∧
    (endAuction s tokenId now = .ok (s', l) →
      (s.auctions tokenId).currentBidder ≠ 0 →
      (s.auctions tokenId).currentBid * s.marketplaceFee / 10000
          + (royaltyInfo s tokenId (s.auctions tokenId).currentBid).2
        ≤ (s.auctions tokenId).currentBid ∧
      ((s.auctions tokenId).currentBid
          - (s.auctions tokenId).currentBid * s.marketplaceFee / 10000
          - (royaltyInfo s tokenId (s.auctions tokenId).currentBid).2)
          + (s.auctions tokenId).currentBid * s.marketplaceFee / 10000
          + (royaltyInfo s tokenId (s.auctions tokenId).currentBid).2
        = (s.auctions tokenId).currentBid ∧
      feeSplit s tokenId (s.auctions tokenId).currentBid
        = .ok ((s.auctions tokenId).currentBid * s.marketplaceFee / 10000,
               (royaltyInfo s tokenId (s.auctions tokenId).currentBid).1,
               (royaltyInfo s tokenId (s.auctions tokenId).currentBid).2,
               (s.auctions tokenId).currentBid
                 - (s.auctions tokenId).currentBid * s.marketplaceFee / 10000
                 - (royaltyInfo s tokenId (s.auctions tokenId).currentBid).2) ∧
      Xfer.eth (s.auctions tokenId).seller
          ((s.auctions tokenId).currentBid
            - (s.auctions tokenId).currentBid * s.marketplaceFee / 10000
            - (royaltyInfo s tokenId (s.auctions tokenId).currentBid).2) ∈ l) := by
  constructor
  · intro h
    obtain ⟨-, -, -, -, -, -, -, -, -, -, -, -, fee, rr, ra, sa, hfs, hcases⟩ := buyNFT_ok h
    obtain ⟨hf, hr, hra, hsa, hle⟩ := feeSplit_ok_elim hfs
    subst hf
    subst hra
    subst hsa
    refine ⟨hle, by omega, by rw [← hr]; exact hfs, ?_⟩
    rcases hcases with ⟨-, -, hsell, -, -⟩ | ⟨-, -, hsell, -, -⟩
    · exact Or.inl hsell
    · exact Or.inr hsell
  · intro h hbidder
    obtain ⟨-, -, -, -, -, -, -, -, -, hcase⟩ := endAuction_ok h
    rcases hcase with ⟨hz, -, -⟩ | ⟨-, -, -, fee, rr, ra, sa, hfs, hsell, -, -⟩
    · exact absurd hz hbidder
    · obtain ⟨hf, hr, hra, hsa, hle⟩ := feeSplit_ok_elim hfs
      subst hf
      subst hra
      subst hsa
      exact ⟨hle, by omega, by rw [← hr]; exact hfs, hsell⟩

/-- Concrete marketplace state used to witness the settlement theorem:
token 0 listed at 1000 wei by seller 2, token 1 under auction with a
standing 1000-wei bid from account 4; 250 bps marketplace fee and a
500 bps royalty to account 3 on both tokens. -/
def splitW : MarketState :=
  { owner := 1
    paused := false
    tokenIdCounter := 2
    marketplaceFee := 250
    usdtToken := 9
    owners := fun t => if t = 0 ∨ t = 1 then 2 else 0
    listings := fun t => if t = 0 then ⟨0, 2, 1000, 0, true, 0⟩ else Listing.deleted
    auctions := fun t => if t = 1 then ⟨1, 2, 500, 1000, 4, 0, 10, true, 0⟩ else Auction.deleted
    pendingWithdrawals := fun _ => 0
    approvedNFTs := fun t => decide (t < 2)
    royaltyReceiver := fun t => if t < 2 then 3 else 0
    royaltyFraction := fun t => if t < 2 then 500 else 0 }

/-- Witness for C1: on `splitW`, buying token 0 at 1000 and ending the
auction on token 1 at its 1000-wei winning bid both split the price
into fee 25, royalty 50 and seller amount 925, which sum to 1000. -/
theorem sale_settlement_exact_witness :
    ((25 : Nat) + 50 ≤ 1000 ∧ (1000 - 25 - 50) + 25 + 50 = 1000 ∧
      feeSplit splitW 0 1000 = .ok (25, 3, 50, 925) ∧
      (Xfer.eth 2 925 ∈ okLog (buyNFT splitW 4 0 1000) ∨
       Xfer.erc20 0 2 925 ∈ okLog (buyNFT splitW 4 0 1000))) ∧
    ((25 : Nat) + 50 ≤ 1000 ∧ (1000 - 25 - 50) + 25 + 50 = 1000 ∧
      feeSplit splitW 1 1000 = .ok (25, 3, 50, 925) ∧
      Xfer.eth 2 925 ∈ okLog (endAuction splitW 1 10)) :=
  ⟨(sale_settlement_exact splitW 4 0 1000 0
      (okState (buyNFT splitW 4 0 1000) splitW) (okLog (buyNFT splitW 4 0 1000))).1 rfl,
   (sale_settlement_exact splitW 4 1 0 10
      (okState (endAuction splitW 1 10) splitW) (okLog (endAuction splitW 1 10))).2 rfl
      (by decide)⟩

/-- C2: in every reachable state, a listing and an auction are never
simultaneously active for the same item; `listNFT` fails while an
auction is active (specifically with the token-in-auction error when
every other precondition holds) and `createAuction` fails while a
listing is active (specifically with the token-is-listed error); and of
all the contract's operations only `listNFT` activates a listing and
only `createAuction` activates an auction, each for the one item it was
called on. -/
theorem listing_auction_mutually_exclusive (s : MarketState) (hr : Reachable s) :
    (∀ t, ¬ ((s.listings t).active = true ∧ (s.auctions t).active = true)) ∧
    (∀ (sender : Address) (tokenId price : Nat) (pt : Address) (now : Nat),
       (s.auctions tokenId).active = true →
       isOk (listNFT s sender tokenId price pt now) = false) ∧
    (∀ (sender : Address) (tokenId sp d : Nat) (pt : Address) (now : Nat),
       (s.listings tokenId).active = true →
       isOk (createAuction s sender tokenId sp d pt now) = false) ∧
    (∀ (sender : Address) (tokenId price : Nat) (pt : Address) (now : Nat),
       (s.auctions tokenId).active = true →
       s.owners tokenId = sender → sender ≠ 0 →
       s.approvedNFTs tokenId = true → s.paused = false →
       0 < price → (pt = 0 ∨ pt = s.usdtToken) →
       listNFT s sender tokenId price pt now = .error .tokenInAuction) ∧
    (∀ (sender : Address) (tokenId sp d : Nat) (pt : Address) (now : Nat),
       (s.listings tokenId).active = true →
       s.owners tokenId = sender → sender ≠ 0 →
       s.approvedNFTs tokenId = true → s.paused = false →
       0 < sp → 3600 ≤ d → d ≤ 604800 → (pt = 0 ∨ pt = s.usdtToken) →
       createAuction s sender tokenId sp d pt now = .error .tokenIsListed) ∧
    (∀ (sender : Address) (op : Op) (s' : MarketState) (l : List Xfer),
       runOp s sender op = .ok (s', l) →
       ∀ t, ((s'.listings t).active = true → (s.listings t).active = true ∨
               ∃ price pt now2, op = Op.listOp t price pt now2) ∧
            ((s'.auctions t).active = true → (s.auctions t).active = true ∨
               ∃ sp d pt now2, op = Op.createOp t sp d pt now2)) := by
  have hinv := inv_of_reachable hr
  refine ⟨fun t => (hinv t).1, ?_, ?_, ?_, ?_, ?_⟩
  · intro sender tokenId price pt now hact
    cases hok : listNFT s sender tokenId price pt now with
    | error e => rfl
    | ok r =>
      rcases r with ⟨s', l⟩
      obtain ⟨-, -, -, -, -, -, -, h8, -⟩ := listNFT_ok hok
      rw [hact] at h8
      exact Bool.noConfusion h8
  · intro sender tokenId sp d pt now hact
    cases hok : createAuction s sender tokenId sp d pt now with
    | error e => rfl
    | ok r =>
      rcases r with ⟨s', l⟩
      obtain ⟨-, -, -, -, -, -, -, h8, -⟩ := createAuction_ok hok
      rw [hact] at h8
      exact Bool.noConfusion h8
  · intro sender tokenId price pt now hact hown hs0 happ hp hprice hcur
    have hla : (s.listings tokenId).active = false := by
      rcases Bool.eq_false_or_eq_true (s.listings tokenId).active with hb | hb
      · exact absurd ⟨hb, hact⟩ (hinv tokenId).1
      · exact hb
    rcases hcur with hc | hc <;>
      simp [listNFT, hown, hs0, happ, hp, hprice, hla, hact, hc]
  · intro sender tokenId sp d pt now hact hown hs0 happ hp hsp hd1 hd2 hcur
    rcases hcur with hc | hc <;>
      simp [createAuction, hown, hs0, happ, hp, hsp, hd1, hd2, hact, hc]
  · intro sender op s' l hok t
    cases op with
    | mint mintTo rr rnum =>
        obtain ⟨-, -, hl, ha, -⟩ := mintNFT_ok hok
        rw [hl, ha]
        exact ⟨fun h => Or.inl h, fun h => Or.inl h⟩
    | approve tokenId b =>
        obtain ⟨-, -, hs, -⟩ := approveNFT_ok hok
        subst hs
        exact ⟨fun h => Or.inl h, fun h => Or.inl h⟩
    | batchApprove ids b =>
        obtain ⟨hl, ha, -⟩ := batchApproveNFTs_ok hok
        rw [hl, ha]
        exact ⟨fun h => Or.inl h, fun h => Or.inl h⟩
    | listOp tokenId price pt now2 =>
        obtain ⟨-, -, -, -, -, -, -, -, hl, ha, -⟩ := listNFT_ok hok
        rw [hl, ha]
        constructor
        · intro hact'
          rcases eq_or_ne t tokenId with rfl | ht
          · exact Or.inr ⟨price, pt, now2, rfl⟩
          · rw [upd_other _ _ _ t ht] at hact'
            exact Or.inl hact'
        · exact fun h => Or.inl h
    | buyOp tokenId msgValue =>
        obtain ⟨-, -, -, -, -, hl, ha, -⟩ := buyNFT_ok hok
        rw [hl, ha]
        constructor
        · intro hact'
          rcases eq_or_ne t tokenId with rfl | ht
          · rw [upd_same] at hact'
            simp [Listing.deleted] at hact'
          · rw [upd_other _ _ _ t ht] at hact'
            exact Or.inl hact'
        · exact fun h => Or.inl h
    | cancelOp tokenId =>
        obtain ⟨-, -, -, hl, ha, -⟩ := cancelListing_ok hok
        rw [hl, ha]
        constructor
        · intro hact'
          rcases eq_or_ne t tokenId with rfl | ht
          · rw [upd_same] at hact'
            simp [Listing.deleted] at hact'
          · rw [upd_other _ _ _ t ht] at hact'
            exact Or.inl hact'
        · exact fun h => Or.inl h
    | createOp tokenId sp d pt now2 =>
        obtain ⟨-, -, -, -, -, -, -, -, -, ha, hl, -⟩ := createAuction_ok hok
        rw [hl, ha]
        constructor
        · exact fun h => Or.inl h
        · intro hact'
          rcases eq_or_ne t tokenId with rfl | ht
          · exact Or.inr ⟨sp, d, pt, now2, rfl⟩
          · rw [upd_other _ _ _ t ht] at hact'
            exact Or.inl hact'
    | bidOp tokenId msgValue now2 =>
        obtain ⟨-, -, -, -, -, -, -, ha, -, hl, -⟩ := placeBid_ok hok
        rw [hl, ha]
        constructor
        · exact fun h => Or.inl h
        · intro hact'
          rcases eq_or_ne t tokenId with rfl | ht
          · rw [upd_same] at hact'
            exact Or.inl hact'
          · rw [upd_other _ _ _ t ht] at hact'
            exact Or.inl hact'
    | endOp tokenId now2 =>
        obtain ⟨-, -, ha, hl, -⟩ := endAuction_ok hok
        rw [hl, ha]
        constructor
        · exact fun h => Or.inl h
        · intro hact'
          rcases eq_or_ne t tokenId with rfl | ht
          · rw [upd_same] at hact'
            simp [Auction.deleted] at hact'
          · rw [upd_other _ _ _ t ht] at hact'
            exact Or.inl hact'
    | withdrawOp =>
        obtain ⟨-, hs, -⟩ := withdraw_ok hok
        subst hs
        exact ⟨fun h => Or.inl h, fun h => Or.inl h⟩
    | setFeeOp fee =>
        obtain ⟨-, -, hs, -⟩ := setMarketplaceFee_ok hok
        subst hs
        exact ⟨fun h => Or.inl h, fun h => Or.inl h⟩
    | setTokenOp tok =>
        obtain ⟨-, hs, -⟩ := setUSDTToken_ok hok
        subst hs
        exact ⟨fun h => Or.inl h, fun h => Or.inl h⟩
    | pauseOp =>
        obtain ⟨-, -, hs, -⟩ := pause_ok hok
        subst hs
        exact ⟨fun h => Or.inl h, fun h => Or.inl h⟩
    | unpauseOp =>
        obtain ⟨-, -, hs, -⟩ := unpause_ok hok
        subst hs
        exact ⟨fun h => Or.inl h, fun h => Or.inl h⟩

/-- C3: on an active, unexpired, native-currency auction, a non-seller
bid is accepted iff it reaches the starting price and strictly exceeds
the current bid; on acceptance the displaced bidder (if any) is credited
with exactly the displaced bid and the auction's current bid/bidder are
replaced, everything else untouched. -/
theorem placeBid_accepts_iff (s : MarketState) (sender : Address)
    (tokenId msgValue now : Nat)
    (hpause : s.paused = false)
    (hact : (s.auctions tokenId).active = true)
    (htime : now < (s.auctions tokenId).endTime)
    (hself : sender ≠ (s.auctions tokenId).seller)
    (hnative : (s.auctions tokenId).paymentToken = 0) :
    (isOk (placeBid s sender tokenId msgValue now) = true ↔
      (s.auctions tokenId).startingPrice ≤ msgValue ∧
      (s.auctions tokenId).currentBid < msgValue) ∧
    (∀ s' l, placeBid s sender tokenId msgValue now = .ok (s', l) →
      ((s.auctions tokenId).currentBidder ≠ 0 →
        s'.pendingWithdrawals (s.auctions tokenId).currentBidder
          = s.pendingWithdrawals (s.auctions tokenId).currentBidder
            + (s.auctions tokenId).currentBid) ∧
      ((s.auctions tokenId).currentBidder = 0 →
        s'.pendingWithdrawals = s.pendingWithdrawals) ∧
      (∀ a, a ≠ (s.auctions tokenId).currentBidder →
        s'.pendingWithdrawals a = s.pendingWithdrawals a) ∧
      (s'.auctions tokenId).currentBid = msgValue ∧
      (s'.auctions tokenId).currentBidder = sender ∧
      (s'.auctions tokenId).active = true ∧
      (s'.auctions tokenId).seller = (s.auctions tokenId).seller ∧
      (s'.auctions tokenId).endTime = (s.auctions tokenId).endTime ∧
      (s'.auctions tokenId).startingPrice = (s.auctions tokenId).startingPrice ∧
      (∀ t, t ≠ tokenId → s'.auctions t = s.auctions t) ∧
      s'.listings = s.listings ∧ s'.owners = s.owners ∧ l = []) := by
  constructor
  · constructor
    · intro hok
      cases hok2 : placeBid s sender tokenId msgValue now with
      | error e => rw [hok2] at hok; exact Bool.noConfusion hok
      | ok r =>
        rcases r with ⟨s', l⟩
        obtain ⟨-, -, -, -, -, h6, h7, -⟩ := placeBid_ok hok2
        exact ⟨h6, h7⟩
    · intro ⟨h1, h2⟩
      simp [placeBid, hpause, hact, htime, hself, hnative, Nat.not_lt.mpr h1, h2]
  · intro s' l hok
    obtain ⟨-, -, -, -, -, -, -, ha, hp, hl, ho, -, -, -, -, hlog⟩ := placeBid_ok hok
    refine ⟨?_, ?_, ?_, ?_, ?_, ?_, ?_, ?_, ?_, ?_, hl, ho, hlog⟩
    · intro hb
      rw [hp, if_pos hb, upd_same]
    · intro hb
      rw [hp, if_neg (by simp [hb])]
    · intro a hab
      rw [hp]
      split_ifs with hb
      · exact upd_other _ _ _ a hab
      · rfl
    · rw [ha, upd_same]
    · rw [ha, upd_same]
    · rw [ha, upd_same]
      exact hact
    · rw [ha, upd_same]
    · rw [ha, upd_same]
    · rw [ha, upd_same]
    · intro t ht
      rw [ha]
      exact upd_other _ _ _ t ht

/-- Auction state used to witness the bidding rules: token 0 auctioned
by seller 2, starting price 500, standing bid 600 from account 4. -/
def auctionW : MarketState :=
  { owner := 1
    paused := false
    tokenIdCounter := 1
    marketplaceFee := 250
    usdtToken := 9
    owners := fun t => if t = 0 then 2 else 0
    listings := fun _ => Listing.deleted
    auctions := fun t => if t = 0 then ⟨0, 2, 500, 600, 4, 0, 100, true, 0⟩ else Auction.deleted
    pendingWithdrawals := fun _ => 0
    approvedNFTs := fun t => decide (t = 0)
    royaltyReceiver := fun _ => 0
    royaltyFraction := fun _ => 0 }

/-- Witness for C3: account 5 bids 700 over the standing 600 bid;
the bid is accepted, account 4 is credited 600, and the auction now
records bid 700 by account 5. -/
theorem placeBid_accepts_iff_witness :
    (isOk (placeBid auctionW 5 0 700 1) = true ↔ 500 ≤ 700 ∧ 600 < 700) ∧
    (okState (placeBid auctionW 5 0 700 1) auctionW).pendingWithdrawals 4 = 0 + 600 ∧
    ((okState (placeBid auctionW 5 0 700 1) auctionW).auctions 0).currentBid = 700 ∧
    ((okState (placeBid auctionW 5 0 700 1) auctionW).auctions 0).currentBidder = 5 := by
  have h := placeBid_accepts_iff auctionW 5 0 700 1 rfl rfl (by decide) (by decide) rfl
  have h2 := h.2 (okState (placeBid auctionW 5 0 700 1) auctionW)
    (okLog (placeBid auctionW 5 0 700 1)) rfl
  exact ⟨h.1, h2.1 (by decide), h2.2.2.2.1, h2.2.2.2.2.1⟩

/-- C4: `withdraw` reverts with the nothing-to-withdraw error when the
caller's pending balance is zero; otherwise, at the point in its step
trace where the external payout is performed, the caller's recorded
balance has already been set to zero. -/
theorem withdraw_zeroes_before_transfer (s : MarketState) (sender : Address) :
    (s.pendingWithdrawals sender = 0 →
      withdrawTrace s sender = .error .noFundsToWithdraw ∧
      withdraw s sender = .error .noFundsToWithdraw) ∧
    (∀ tr, withdrawTrace s sender = .ok tr →
      ∀ (j : Nat) (hj : j < tr.length) (dst : Address) (v : Nat),
        tr.get ⟨j, hj⟩ = WAct.ethOut dst v →
        ((tr.take j).foldl applyWAct s).pendingWithdrawals sender = 0) := by
  constructor
  · intro hz
    constructor
    · simp [withdrawTrace, hz]
    · simp [withdraw, withdrawTrace, hz, Except.map]
  · intro tr htr j hj dst v hget
    have hnz : ¬ s.pendingWithdrawals sender = 0 := by
      intro hz
      simp [withdrawTrace, hz] at htr
    simp only [withdrawTrace, if_neg hnz] at htr
    obtain rfl : [WAct.setPending sender 0, WAct.ethOut sender (s.pendingWithdrawals sender)] = tr := by
      simpa using htr
    match j, hj with
    | 0, _ =>
      exact absurd hget (by simp)
    | 1, _ =>
      simp [List.take, List.foldl, applyWAct, upd]

/-- State with a 600-wei pending balance owed to account 4, used to
witness the withdrawal ordering. -/
def withdrawW : MarketState :=
  { initState 1 9 with pendingWithdrawals := fun a => if a = 4 then 600 else 0 }

/-- Witness for C4: on `withdrawW`, the state after the steps preceding
the payout has balance 0 for the caller, and a caller with no balance
gets the nothing-to-withdraw error. -/
theorem withdraw_zeroes_before_transfer_witness :
    (([WAct.setPending 4 0] : List WAct).foldl applyWAct withdrawW).pendingWithdrawals 4 = 0 ∧
    withdraw withdrawW 7 = .error Err.noFundsToWithdraw := by
  constructor
  · exact (withdraw_zeroes_before_transfer withdrawW 4).2
      [WAct.setPending 4 0, WAct.ethOut 4 600] rfl 1 (by decide) 4 600 rfl
  · exact ((withdraw_zeroes_before_transfer withdrawW 7).1 rfl).2

/-! A small reachable history: deploy, mint token 0 to account 2 with a
5% royalty to account 3, approve it, then either list it or auction it. -/

def chain0 : MarketState := initState 1 9

def chain1 : MarketState := okState (mintNFT chain0 2 3 500) chain0

def chain2 : MarketState := okState (approveNFT chain1 1 0 true) chain1

def chain3 : MarketState := okState (listNFT chain2 2 0 1000 0 0) chain2

def chain4 : MarketState := okState (createAuction chain2 2 0 1000 3600 0 5) chain2

theorem reachable_chain2 : Reachable chain2 := by
  have h0 : Reachable chain0 := .init 1 9 (by decide)
  have h1 : Reachable chain1 :=
    .step chain0 2 (.mint 2 3 500) chain1 [] h0 (by decide) rfl
  exact .step chain1 1 (.approve 0 true) chain2 [] h1 (by decide) rfl

theorem reachable_chain3 : Reachable chain3 :=
  .step chain2 2 (.listOp 0 1000 0 0) chain3 [] reachable_chain2 (by decide) rfl

theorem reachable_chain4 : Reachable chain4 :=
  .step chain2 2 (.createOp 0 1000 3600 0 5) chain4 [] reachable_chain2 (by decide) rfl

/-- Witness for C2: in the reachable state `chain4` (token 0 under
auction) listing and auction are not both active on token 0 and listing
the auctioned token fails — for its owner 2, with precisely the
token-in-auction error; in `chain3` (token 0 listed), auctioning the
listed token fails with the token-is-listed error. -/
theorem listing_auction_mutually_exclusive_witness :
    (¬ ((chain4.listings 0).active = true ∧ (chain4.auctions 0).active = true)) ∧
    isOk (listNFT chain4 5 0 700 0 6) = false ∧
    isOk (createAuction chain3 5 0 700 3600 0 6) = false ∧
    listNFT chain4 2 0 700 0 6 = .error Err.tokenInAuction ∧
    createAuction chain3 2 0 700 3600 0 6 = .error Err.tokenIsListed := by
  have h4 := listing_auction_mutually_exclusive chain4 reachable_chain4
  have h3 := listing_auction_mutually_exclusive chain3 reachable_chain3
  exact ⟨h4.1 0, h4.2.1 5 0 700 0 6 rfl, h3.2.2.1 5 0 700 3600 0 6 rfl,
    h4.2.2.2.1 2 0 700 0 6 rfl rfl (by decide) rfl rfl (by decide) (Or.inl rfl),
    h3.2.2.2.2.1 2 0 700 3600 0 6 rfl rfl (by decide) rfl rfl (by decide)
      (by decide) (by decide) (Or.inl rfl)⟩

/-- C6: a bid on an auction whose payment currency is the ERC-20 token
is always rejected — no call path accepts it — and when every other
precondition holds the revert is the explicit not-implemented error
(or the no-ETH-for-ERC20 error when native value was attached). -/
theorem erc20_auction_bids_rejected (s : MarketState) (sender : Address)
    (tokenId msgValue now : Nat)
    (htok : (s.auctions tokenId).paymentToken ≠ 0) :
    isOk (placeBid s sender tokenId msgValue now) = false ∧
    (s.paused = false → (s.auctions tokenId).active = true →
     now < (s.auctions tokenId).endTime → sender ≠ (s.auctions tokenId).seller →
     placeBid s sender tokenId msgValue now
       = .error (if msgValue ≠ 0 then Err.ethNotAcceptedAuction
                 else Err.erc20AuctionsNotImplemented)) := by
  constructor
  · cases hok : placeBid s sender tokenId msgValue now with
    | error e => rfl
    | ok r =>
      rcases r with ⟨s', l⟩
      obtain ⟨-, -, -, -, hpt, -⟩ := placeBid_ok hok
      exact absurd hpt htok
  · intro hp hact htime hself
    by_cases hv : msgValue ≠ 0 <;>
      simp [placeBid, hp, hact, htime, hself, htok, hv]

/-- State with a token-denominated (USDT) auction on token 0. -/
def erc20AuctionW : MarketState :=
  { initState 1 9 with
    owners := fun t => if t = 0 then 2 else 0
    auctions := fun t => if t = 0 then ⟨0, 2, 500, 0, 0, 9, 100, true, 0⟩ else Auction.deleted }

/-- Witness for C6: bidding (without attached value) on the USDT
auction is rejected with the explicit not-implemented error. -/
theorem erc20_auction_bids_rejected_witness :
    isOk (placeBid erc20AuctionW 4 0 0 1) = false ∧
    placeBid erc20AuctionW 4 0 0 1 = .error Err.erc20AuctionsNotImplemented := by
  have h := erc20_auction_bids_rejected erc20AuctionW 4 0 0 1 (by decide)
  exact ⟨h.1, h.2 rfl rfl (by decide) (by decide)⟩

/-- C7: in a reachable state, cancelling fails with the not-token-owner
error whenever the caller is not the active listing's seller, fails with
the not-listed error when no listing is active (for the token's owner),
and on success merely deletes the listing: no transfer is performed and
ownership and every other record are unchanged. -/
theorem cancelListing_spec (s : MarketState) (sender : Address) (tokenId : Nat)
    (hr : Reachable s) :
    ((s.listings tokenId).active = true → sender ≠ (s.listings tokenId).seller →
      cancelListing s sender tokenId = .error .notTokenOwner) ∧
    ((s.listings tokenId).active = false → sender = s.owners tokenId →
      s.owners tokenId ≠ 0 →
      cancelListing s sender tokenId = .error .notListed) ∧
    (∀ s' l, cancelListing s sender tokenId = .ok (s', l) →
      l = [] ∧ s'.owners = s.owners ∧ s'.auctions = s.auctions ∧
      s'.pendingWithdrawals = s.pendingWithdrawals ∧
      (s'.listings tokenId).active = false ∧
      ∀ t, t ≠ tokenId → s'.listings t = s.listings t) := by
  have hinv := inv_of_reachable hr tokenId
  refine ⟨?_, ?_, ?_⟩
  · intro hact hneq
    obtain ⟨hsel, hnz⟩ := hinv.2.1 hact
    have h0 : ¬ s.owners tokenId = 0 := by
      rw [← hsel]
      exact hnz
    have hns : s.owners tokenId ≠ sender := by
      rw [← hsel]
      exact fun hc => hneq hc.symm
    simp [cancelListing, h0, hns]
  · intro hinact hsend h0
    have hs0 : ¬ sender = 0 := fun hc => h0 (hsend.symm.trans hc)
    simp [cancelListing, ← hsend, hinact, hs0]
  · intro s' l hok
    obtain ⟨-, -, -, hl, ha, ho, hp, -, -, -, -, hlog⟩ := cancelListing_ok hok
    refine ⟨hlog, ho, ha, hp, ?_, ?_⟩
    · rw [hl, upd_same]
      rfl
    · intro t ht
      rw [hl]
      exact upd_other _ _ _ t ht

/-- Witness for C7: on `chain3` (token 0 listed by account 2), account 4
cannot cancel (not token owner); cancelling by the seller deletes the
listing, moves no funds and keeps ownership; and on `chain2` (nothing
listed) the owner's cancel fails with the not-listed error. -/
theorem cancelListing_spec_witness :
    cancelListing chain3 4 0 = .error Err.notTokenOwner ∧
    cancelListing chain2 2 0 = .error Err.notListed ∧
    (okLog (cancelListing chain3 2 0) = [] ∧
      (okState (cancelListing chain3 2 0) chain3).owners = chain3.owners ∧
      ((okState (cancelListing chain3 2 0) chain3).listings 0).active = false) := by
  have h3 := cancelListing_spec chain3 4 0 reachable_chain3
  have h2 := cancelListing_spec chain2 2 0 reachable_chain2
  have hok := (cancelListing_spec chain3 2 0 reachable_chain3).2.2
    (okState (cancelListing chain3 2 0) chain3) (okLog (cancelListing chain3 2 0)) rfl
  exact ⟨h3.1 rfl (by decide), h2.2.1 rfl rfl (by decide),
    hok.1, hok.2.1, hok.2.2.2.2.1⟩

/-- C9: creating a listing or an auction moves nothing: on success the
transfer log is empty, ownership of every token (including the listed
one, which the seller keeps — no escrow), all pending balances and every
other token's records are unchanged. -/
theorem create_list_move_nothing (s : MarketState) (sender : Address)
    (tokenId price sp d now : Nat) (pt : Address)
    (s' : MarketState) (l : List Xfer) :
    (listNFT s sender tokenId price pt now = .ok (s', l) →
      l = [] ∧ s'.owners = s.owners ∧ s'.owners tokenId = sender ∧
      s'.pendingWithdrawals = s.pendingWithdrawals ∧
      s'.auctions = s.auctions ∧
      (∀ t, t ≠ tokenId → s'.listings t = s.listings t)) ∧
    (createAuction s sender tokenId sp d pt now = .ok (s', l) →
      l = [] ∧ s'.owners = s.owners ∧ s'.owners tokenId = sender ∧
      s'.pendingWithdrawals = s.pendingWithdrawals ∧
      s'.listings = s.listings ∧
      (∀ t, t ≠ tokenId → s'.auctions t = s.auctions t)) := by
  constructor
  · intro h
    obtain ⟨-, h2, -, -, -, -, -, -, hl, ha, ho, hp, -, -, -, -, hlog⟩ := listNFT_ok h
    refine ⟨hlog, ho, ?_, hp, ha, ?_⟩
    · rw [ho, ← h2]
    · intro t ht
      rw [hl]
      exact upd_other _ _ _ t ht
  · intro h
    obtain ⟨-, h2, -, -, -, -, -, -, -, ha, hl, ho, hp, -, -, -, -, hlog⟩ := createAuction_ok h
    refine ⟨hlog, ho, ?_, hp, hl, ?_⟩
    · rw [ho, ← h2]
    · intro t ht
      rw [ha]
      exact upd_other _ _ _ t ht

/-- Witness for C9: listing token 0 (and, independently, auctioning it)
from `chain2` leaves ownership with seller 2, leaves all balances at
zero and performs no transfer. -/
theorem create_list_move_nothing_witness :
    (okLog (listNFT chain2 2 0 1000 0 0) = [] ∧
      (okState (listNFT chain2 2 0 1000 0 0) chain2).owners = chain2.owners ∧
      (okState (listNFT chain2 2 0 1000 0 0) chain2).owners 0 = 2) ∧
    (okLog (createAuction chain2 2 0 1000 3600 0 5) = [] ∧
      (okState (createAuction chain2 2 0 1000 3600 0 5) chain2).owners = chain2.owners ∧
      (okState (createAuction chain2 2 0 1000 3600 0 5) chain2).owners 0 = 2) := by
  have h1 := (create_list_move_nothing chain2 2 0 1000 1000 3600 0 0
    (okState (listNFT chain2 2 0 1000 0 0) chain2)
    (okLog (listNFT chain2 2 0 1000 0 0))).1 rfl
  have h2 := (create_list_move_nothing chain2 2 0 1000 1000 3600 5 0
    (okState (createAuction chain2 2 0 1000 3600 0 5) chain2)
    (okLog (createAuction chain2 2 0 1000 3600 0 5))).2 rfl
  exact ⟨⟨h1.1, h1.2.1, h1.2.2.1⟩, ⟨h2.1, h2.2.1, h2.2.2.1⟩⟩

/-- C10: `setUSDTToken` changes only the accepted-token configuration —
no listing, auction, ownership or balance — and a later `buyNFT` of a
listing created earlier settles entirely in the payment currency
recorded in that listing, not in the newly configured token. -/
theorem setUSDTToken_keeps_listing_currency (s : MarketState)
    (sender newToken : Address) (s₁ : MarketState) (l₀ : List Xfer)
    (hset : setUSDTToken s sender newToken = .ok (s₁, l₀)) :
    l₀ = [] ∧ s₁.listings = s.listings ∧ s₁.auctions = s.auctions ∧
    s₁.owners = s.owners ∧ s₁.pendingWithdrawals = s.pendingWithdrawals ∧
    s₁.usdtToken = newToken ∧
    ∀ (buyer : Address) (tokenId msgValue : Nat) (s₂ : MarketState) (l : List Xfer),
      buyNFT s₁ buyer tokenId msgValue = .ok (s₂, l) →
      ∀ x ∈ l, x.currency = (s.listings tokenId).paymentToken := by
  obtain ⟨-, hs, hl0⟩ := setUSDTToken_ok hset
  subst hs
  refine ⟨hl0, rfl, rfl, rfl, rfl, rfl, ?_⟩
  intro buyer tokenId msgValue s₂ l hbuy
  obtain ⟨-, -, -, -, -, -, -, -, -, -, -, -, fee, rr, ra, sa, -, hcases⟩ := buyNFT_ok hbuy
  rcases hcases with ⟨hpt, -, -, -, hcur⟩ | ⟨-, -, -, -, hcur⟩
  · exact fun x hx => (hcur x hx).trans hpt.symm
  · exact fun x hx => hcur x hx

/-- Witness for C10: on `splitW`, the administrator points the token
configuration at a new address 11; the earlier listing of token 0 is
untouched and its purchase still settles in the currency (native, id 0)
recorded at listing time. -/
theorem setUSDTToken_keeps_listing_currency_witness :
    okLog (setUSDTToken splitW 1 11) = [] ∧
    (okState (setUSDTToken splitW 1 11) splitW).listings = splitW.listings ∧
    (okState (setUSDTToken splitW 1 11) splitW).usdtToken = 11 ∧
    (Xfer.eth 2 925).currency = (splitW.listings 0).paymentToken := by
  have h := setUSDTToken_keeps_listing_currency splitW 1 11
    (okState (setUSDTToken splitW 1 11) splitW) (okLog (setUSDTToken splitW 1 11)) rfl
  exact ⟨h.1, h.2.1, h.2.2.2.2.2.1, h.2.2.2.2.2.2 4 0 1000
    (okState (buyNFT (okState (setUSDTToken splitW 1 11) splitW) 4 0 1000)
      (okState (setUSDTToken splitW 1 11) splitW))
    (okLog (buyNFT (okState (setUSDTToken splitW 1 11) splitW) 4 0 1000)) rfl
    (Xfer.eth 2 925) (by decide)⟩

/-- The same state with the pause flag replaced. -/
def withPaused (s : MarketState) (b : Bool) : MarketState := { s with paused := b }

@[simp] theorem withPaused_paused (s : MarketState) (b : Bool) :
    (withPaused s b).paused = b := rfl

@[simp] theorem withPaused_owners (s : MarketState) (b : Bool) :
    (withPaused s b).owners = s.owners := rfl

@[simp] theorem withPaused_listings (s : MarketState) (b : Bool) :
    (withPaused s b).listings = s.listings := rfl

@[simp] theorem withPaused_auctions (s : MarketState) (b : Bool) :
    (withPaused s b).auctions = s.auctions := rfl

@[simp] theorem withPaused_pending (s : MarketState) (b : Bool) :
    (withPaused s b).pendingWithdrawals = s.pendingWithdrawals := rfl

@[simp] theorem withPaused_owner (s : MarketState) (b : Bool) :
    (withPaused s b).owner = s.owner := rfl

theorem feeSplit_withPaused (s : MarketState) (b : Bool) (tokenId p : Nat) :
    feeSplit (withPaused s b) tokenId p = feeSplit s tokenId p := rfl

/-- C8: while paused, `listNFT`, `buyNFT`, `createAuction` and
`placeBid` all fail (so the listings, auctions and ownership maps are
untouched by such attempts — a revert carries no state), while
`cancelListing`, `endAuction` and `withdraw` never read the pause flag:
their result on a state with any pause-flag value is the result on the
unpaused state with the flag transplanted back. -/
theorem pause_blocks_trading_only (s : MarketState) (sender : Address)
    (tokenId price msgValue sp d now : Nat) (pt : Address) (b : Bool) :
    (s.paused = true →
      isOk (listNFT s sender tokenId price pt now) = false ∧
      isOk (buyNFT s sender tokenId msgValue) = false ∧
      isOk (createAuction s sender tokenId sp d pt now) = false ∧
      isOk (placeBid s sender tokenId msgValue now) = false) ∧
    cancelListing (withPaused s b) sender tokenId
      = (cancelListing s sender tokenId).map (fun r => (withPaused r.1 b, r.2)) ∧
    endAuction (withPaused s b) tokenId now
      = (endAuction s tokenId now).map (fun r => (withPaused r.1 b, r.2)) ∧
    withdraw (withPaused s b) sender
      = (withdraw s sender).map (fun r => (withPaused r.1 b, r.2)) := by
  refine ⟨?_, ?_, ?_, ?_⟩
  · intro hp
    refine ⟨?_, ?_, ?_, ?_⟩
    · cases hok : listNFT s sender tokenId price pt now with
      | error e => rfl
      | ok r =>
        rcases r with ⟨s', l⟩
        obtain ⟨-, -, -, h4, -⟩ := listNFT_ok hok
        rw [hp] at h4
        exact Bool.noConfusion h4
    · cases hok : buyNFT s sender tokenId msgValue with
      | error e => rfl
      | ok r =>
        rcases r with ⟨s', l⟩
        obtain ⟨h1, -⟩ := buyNFT_ok hok
        rw [hp] at h1
        exact Bool.noConfusion h1
    · cases hok : createAuction s sender tokenId sp d pt now with
      | error e => rfl
      | ok r =>
        rcases r with ⟨s', l⟩
        obtain ⟨-, -, -, h4, -⟩ := createAuction_ok hok
        rw [hp] at h4
        exact Bool.noConfusion h4
    · cases hok : placeBid s sender tokenId msgValue now with
      | error e => rfl
      | ok r =>
        rcases r with ⟨s', l⟩
        obtain ⟨h1, -⟩ := placeBid_ok hok
        rw [hp] at h1
        exact Bool.noConfusion h1
  · simp only [cancelListing, withPaused_owners, withPaused_listings]
    split_ifs <;> rfl
  · simp only [endAuction, withPaused_auctions, withPaused_owners,
      withPaused_owner, feeSplit_withPaused]
    rcases hfs : feeSplit s tokenId (s.auctions tokenId).currentBid with e | q <;>
      split_ifs <;>
      rfl
  · simp only [withdraw, withdrawTrace, withPaused_pending]
    split_ifs <;> rfl

/-- Witness for C8: with `splitW` paused, listing, buying, auctioning
and bidding all fail, while a withdrawal behaves exactly as when
unpaused. -/
theorem pause_blocks_trading_only_witness :
    ((withPaused splitW true).paused = true) ∧
    isOk (listNFT (withPaused splitW true) 2 0 1000 0 0) = false ∧
    isOk (buyNFT (withPaused splitW true) 4 0 1000) = false ∧
    isOk (createAuction (withPaused splitW true) 2 0 1000 3600 0 0) = false ∧
    isOk (placeBid (withPaused splitW true) 5 1 700 1) = false ∧
    withdraw (withPaused (withPaused splitW true) true) 4
      = (withdraw (withPaused splitW true) 4).map (fun r => (withPaused r.1 true, r.2)) := by
  have hl := (pause_blocks_trading_only (withPaused splitW true) 2 0 1000 1000 3600 0 0 0 true).1 rfl
  have hb := (pause_blocks_trading_only (withPaused splitW true) 4 0 1000 1000 3600 0 0 0 true).1 rfl
  have hbid := (pause_blocks_trading_only (withPaused splitW true) 5 1 1000 700 3600 0 1 0 true).1 rfl
  have hw := (pause_blocks_trading_only (withPaused splitW true) 4 0 1000 1000 3600 0 0 0 true).2.2.2
  exact ⟨rfl, hl.1, hb.2.1, hl.2.2.1, hbid.2.2.2, hw⟩

/-- C5 (amended): in a reachable state with an active auction past its
end time, the first `endAuction` call succeeds provided that, when a
winning bidder exists, the fee-plus-royalty split of the winning bid
does not revert (it always succeeds in the no-bid case); the success
clears the active flag by deleting the auction record, and every
subsequent `endAuction` call on that item fails with the
auction-not-active error. -/
theorem endAuction_effective_once (s : MarketState) (tokenId now : Nat)
    (hr : Reachable s)
    (hact : (s.auctions tokenId).active = true)
    (htime : (s.auctions tokenId).endTime ≤ now)
    (hsplit : (s.auctions tokenId).currentBidder = 0 ∨
      isOk (feeSplit s tokenId (s.auctions tokenId).currentBid) = true) :
    ∃ s' l, endAuction s tokenId now = .ok (s', l) ∧
      s'.auctions tokenId = Auction.deleted ∧
      (s'.auctions tokenId).active = false ∧
      ∀ now2, endAuction s' tokenId now2 = .error .auctionNotActive := by
  have howner : s.owners tokenId = (s.auctions tokenId).seller :=
    (((inv_of_reachable hr tokenId).2.2) hact).1.symm
  rcases eq_or_ne (s.auctions tokenId).currentBidder 0 with hz | hnz
  · refine ⟨{ s with auctions := upd s.auctions tokenId Auction.deleted }, [],
      ?_, ?_, ?_, ?_⟩
    · simp [endAuction, hact, Nat.not_lt.mpr htime, hz]
    · simp
    · simp [Auction.deleted]
    · intro now2
      simp [endAuction, Auction.deleted]
  · have hfsok : isOk (feeSplit s tokenId (s.auctions tokenId).currentBid) = true := by
      rcases hsplit with hz' | hok
      · exact absurd hz' hnz
      · exact hok
    obtain ⟨fee, rr, ra, sa, hfs⟩ :
        ∃ fee rr ra sa, feeSplit s tokenId (s.auctions tokenId).currentBid
          = .ok (fee, rr, ra, sa) := by
      cases hq : feeSplit s tokenId (s.auctions tokenId).currentBid with
      | error e =>
        rw [hq] at hfsok
        exact Bool.noConfusion hfsok
      | ok q =>
        rcases q with ⟨fee, rr, ra, sa⟩
        exact ⟨fee, rr, ra, sa, rfl⟩
    refine ⟨{ s with owners := upd s.owners tokenId (s.auctions tokenId).currentBidder
                     auctions := upd s.auctions tokenId Auction.deleted },
      (if ra > 0 ∧ rr ≠ 0 then [Xfer.eth rr ra] else [])
        ++ [Xfer.eth (s.auctions tokenId).seller sa, Xfer.eth s.owner fee],
      ?_, ?_, ?_, ?_⟩
    · simp [endAuction, hact, Nat.not_lt.mpr htime, hnz, hfs, howner]
    · simp
    · simp [Auction.deleted]
    · intro now2
      simp [endAuction, Auction.deleted]

/-- Witness for C5 (amended): `chain4` holds a freshly created auction
on token 0 with no bids; ending it at time 4000 succeeds, deletes the
record, and a second call fails with the auction-not-active error. -/
theorem endAuction_effective_once_witness :
    endAuction chain4 0 4000
      = .ok (okState (endAuction chain4 0 4000) chain4, okLog (endAuction chain4 0 4000)) ∧
    (okState (endAuction chain4 0 4000) chain4).auctions 0 = Auction.deleted ∧
    endAuction (okState (endAuction chain4 0 4000) chain4) 0 9999
      = .error Err.auctionNotActive := by
  obtain ⟨s', l, hok, hdel, -, hsecond⟩ :=
    endAuction_effective_once chain4 0 4000 reachable_chain4 rfl (by decide) (Or.inl rfl)
  refine ⟨?_, ?_, ?_⟩
  · rw [hok]
    rfl
  · rw [hok]
    exact hdel
  · rw [hok]
    exact hsecond 9999

/-! History refuting C5 as stated: token 0 is minted with a 99.5%
royalty, auctioned, and receives a 1000-wei winning bid; the 250 bps fee
plus the 995-wei royalty exceed the 1000-wei price, so the checked
subtraction in the settlement reverts and the first `endAuction` call
after the end time fails. -/

def cexS1 : MarketState := okState (mintNFT chain0 2 3 9950) chain0

def cexS2 : MarketState := okState (approveNFT cexS1 1 0 true) cexS1

def cexS3 : MarketState := okState (createAuction cexS2 2 0 1000 3600 0 0) cexS2

def cexS4 : MarketState := okState (placeBid cexS3 4 0 1000 1) cexS3

/-- Counterexample to C5 as stated: `cexS4` is reachable, its auction on
token 0 is active and past its end time at time 4000, yet the first
`endAuction` call reverts (checked-arithmetic underflow in the
settlement split), so it is not true that any first call after the end
time succeeds. -/
theorem endAuction_first_call_can_revert :
    Reachable cexS4 ∧
    (cexS4.auctions 0).active = true ∧
    (cexS4.auctions 0).endTime ≤ 4000 ∧
    (cexS4.auctions 0).currentBidder ≠ 0 ∧
    endAuction cexS4 0 4000 = .error Err.arithmeticUnderflow := by
  refine ⟨?_, rfl, by decide, by decide, rfl⟩
  have h0 : Reachable chain0 := .init 1 9 (by decide)
  have h1 : Reachable cexS1 :=
    .step chain0 2 (.mint 2 3 9950) cexS1 [] h0 (by decide) rfl
  have h2 : Reachable cexS2 :=
    .step cexS1 1 (.approve 0 true) cexS2 [] h1 (by decide) rfl
  have h3 : Reachable cexS3 :=
    .step cexS2 2 (.createOp 0 1000 3600 0 0) cexS3 [] h2 (by decide) rfl
  exact .step cexS3 4 (.bidOp 0 1000 1) cexS4 [] h3 (by decide) rfl

end NFTMarketplace
